import Mathlib

/-
Verification of the session-authentication and rate-limiting layer of a
password-gated Next.js application (session login route, request middleware,
transcript-analysis route, thumbnail-generation route).

Modelling conventions.  JavaScript strings are embedded as `List Char`,
Node `Buffer` byte sequences as `List Nat`, `Date.now()` timestamps as `Int`,
and the module-level `Map` objects as functions `String → Option _`.
HMAC-SHA256 (`crypto.createHmac` in the session route, `crypto.subtle` in the
middleware) is abstracted as an arbitrary function from a key and a message to
a digest string, packaged in `HmacModel`; the control flow being verified never
depends on the digest's cryptographic content, only on its string shape.
External collaborators of the request handlers (JSON body parsing, the AI
completion and image endpoints, image download/resize, the CDN upload) are
passed in as `Except`-valued oracles describing the outcome of each network or
parsing step, with thrown exceptions as the `error` case.
-/

/-- The character list of a string literal. -/
def chars (s : String) : List Char := s.data

/-- Abstraction of a keyed hash: `hmac key data` stands for
`createHmac("sha256", key).update(data).digest("hex")`. -/
structure HmacModel where
  hmac : List Char → List Char → List Char

/-- A concrete instantiation of the keyed-hash abstraction (constant digest
"ab"), used to evaluate the definitions on closed inputs. -/
def constHmac : HmacModel := ⟨fun _ _ => chars "ab"⟩

/-- JavaScript falsiness for an optional string (`process.env` values): both
`undefined` and the empty string are falsy. -/
def falsyOpt : Option (List Char) → Bool
  | none => true
  | some s => decide (s = [])

/-- `APP_PASSWORD || "fallback"` — the key expression of `getSessionSecret`. -/
def orFallback (appPassword : Option (List Char)) : List Char :=
  if falsyOpt appPassword then chars "fallback" else appPassword.getD []

/-- `token.split(".")` — JavaScript `String.prototype.split` with the
single-character separator used by the token codec. -/
def splitOnDot : List Char → List (List Char)
  | [] => [[]]
  | c :: rest =>
    match splitOnDot rest with
    | [] => [[]]
    | p :: ps => if c = '.' then [] :: p :: ps else (c :: p) :: ps

/-- Hex-digit test for `Buffer.from(str, "hex")`: 0-9, a-f and A-F are all
accepted (hex decoding is case-insensitive in Node). -/
def isHexDigit (c : Char) : Bool :=
  (decide (48 ≤ c.toNat) && decide (c.toNat ≤ 57)) ||
  (decide (97 ≤ c.toNat) && decide (c.toNat ≤ 102)) ||
  (decide (65 ≤ c.toNat) && decide (c.toNat ≤ 70))

/-- Numeric value of a hex digit (only meaningful when `isHexDigit` holds). -/
def hexDigitVal (c : Char) : Nat :=
  if 48 ≤ c.toNat ∧ c.toNat ≤ 57 then c.toNat - 48
  else if 97 ≤ c.toNat ∧ c.toNat ≤ 102 then c.toNat - 87
  else c.toNat - 55

/-- Node's `Buffer.from(str, "hex")`: decodes two hex characters per byte and
truncates at the first invalid character or incomplete trailing pair. -/
def bufferFromHex : List Char → List Nat
  | c1 :: c2 :: rest =>
    if isHexDigit c1 && isHexDigit c2 then
      (16 * hexDigitVal c1 + hexDigitVal c2) :: bufferFromHex rest
    else []
  | _ => []

/-- `crypto.timingSafeEqual` on two byte buffers: throws (modelled as `none`)
when the lengths differ, otherwise reports equality of the contents. -/
def timingSafeEqual (a b : List Nat) : Option Bool :=
  if a.length = b.length then some (decide (a = b)) else none

/-- `getSessionSecret` of the session route: the per-deployment secret,
an HMAC of the constant label under `APP_PASSWORD || "fallback"`. -/
def getSessionSecret (m : HmacModel) (appPassword : Option (List Char)) : List Char :=
  m.hmac (orFallback appPassword) (chars "yva-session-secret")

/-- `generateSessionToken`: random nonce, then `nonce + "." + HMAC(secret,
nonce)`.  The nonce (`randomBytes(32).toString("hex")` in the source) is a
parameter of the model. -/
def generateSessionToken (m : HmacModel) (appPassword : Option (List Char))
    (nonce : List Char) : List Char :=
  nonce ++ '.' :: m.hmac (getSessionSecret m appPassword) nonce

/-- `verifySessionToken` of the session route: split on ".", require exactly
two truthy parts, recompute the signature and compare the hex-decoded buffers
with `timingSafeEqual`, whose length-mismatch exception is caught as `false`. -/
def verifySessionToken (m : HmacModel) (appPassword : Option (List Char))
    (token : List Char) : Bool :=
  match splitOnDot token with
  | [nonce, signature] =>
    if nonce = [] ∨ signature = [] then false
    else
      (timingSafeEqual (bufferFromHex signature)
        (bufferFromHex (m.hmac (getSessionSecret m appPassword) nonce))).getD false
  | _ => false

/-- `verifySessionToken` as duplicated in the API routes (analyze, thumbnail,
upload): same secret derivation and split checks, but the signature comparison
is plain string equality `signature === expected`. -/
def routeVerifySessionToken (m : HmacModel) (appPassword : Option (List Char))
    (token : List Char) : Bool :=
  match splitOnDot token with
  | [nonce, signature] =>
    if nonce = [] ∨ signature = [] then false
    else decide (signature = m.hmac (getSessionSecret m appPassword) nonce)
  | _ => false

/-- `verifySessionToken` of the middleware (Web-Crypto variant): returns false
when no password is configured, otherwise derives the secret from the password
directly and compares signatures as strings. -/
def middlewareVerifySessionToken (m : HmacModel) (appPassword : Option (List Char))
    (token : List Char) : Bool :=
  if falsyOpt appPassword then false
  else
    match splitOnDot token with
    | [nonce, signature] =>
      if nonce = [] ∨ signature = [] then false
      else
        decide (signature =
          m.hmac (m.hmac (appPassword.getD []) (chars "yva-session-secret")) nonce)
    | _ => false

/-- Functional update of an in-memory `Map` (`map.set(key, value)`). -/
def mapSet {α : Type} (key : String) (v : α) (st : String → Option α) :
    String → Option α :=
  fun k => if k = key then some v else st k

/-- Removal from an in-memory `Map` (`map.delete(key)`). -/
def mapDelete {α : Type} (key : String) (st : String → Option α) :
    String → Option α :=
  fun k => if k = key then none else st k

/-- Record of the login rate limiter (`attempts` map of the session route). -/
structure AttemptRecord where
  count : Nat
  firstAttempt : Int
deriving DecidableEq

/-- The session route's `attempts` map, keyed by client IP. -/
abbrev AttemptMap := String → Option AttemptRecord

/-- 15 minutes, the login rate-limit window of the session route. -/
def RATE_LIMIT_WINDOW : Int := 15 * 60 * 1000

/-- 5, the login attempt cap of the session route. -/
def RATE_LIMIT_MAX : Nat := 5

/-- `getAttemptCount`: 0 when no record exists or the window has expired,
otherwise the stored count. -/
def getAttemptCount (now : Int) (ip : String) (st : AttemptMap) : Nat :=
  match st ip with
  | none => 0
  | some r => if now - r.firstAttempt > RATE_LIMIT_WINDOW then 0 else r.count

/-- `recordAttempt`: create a fresh record on a missing or expired entry,
otherwise increment in place. -/
def recordAttempt (now : Int) (ip : String) (st : AttemptMap) : AttemptMap :=
  match st ip with
  | none => mapSet ip ⟨1, now⟩ st
  | some r =>
    if now - r.firstAttempt > RATE_LIMIT_WINDOW then mapSet ip ⟨1, now⟩ st
    else mapSet ip ⟨r.count + 1, r.firstAttempt⟩ st

/-- The backoff delay as a function of the current attempt count
(`Math.min(1000 * Math.pow(2, count - 1), 8000)` behind a `count <= 1`
early return). -/
def delayOfCount (count : Nat) : Nat :=
  if count ≤ 1 then 0 else min (1000 * 2 ^ (count - 1)) 8000

/-- `getDelay` of the session route: exponential backoff from the current
attempt count. -/
def getDelay (now : Int) (ip : String) (st : AttemptMap) : Nat :=
  delayOfCount (getAttemptCount now ip st)

/-- A JSON value found in a request-body field: absent/`undefined`, a string,
or some non-string value of which only truthiness matters to the handlers. -/
inductive JsVal where
  | undef
  | vstr (s : List Char)
  | other (truthy : Bool)
deriving DecidableEq

/-- JavaScript truthiness of a body field. -/
def JsVal.truthy : JsVal → Bool
  | .undef => false
  | .vstr s => decide (s ≠ [])
  | .other t => t

/-- `typeof v === "string"`. -/
def JsVal.isString : JsVal → Bool
  | .vstr _ => true
  | _ => false

/-- The string content of a body field (meaningful when `isString`). -/
def JsVal.strVal : JsVal → List Char
  | .vstr s => s
  | _ => []

/-- The parsed body of the login POST (`const { password } = body`). -/
structure LoginBody where
  password : JsVal

/-- `verifyPassword` of the session route: pad both strings to 256 characters
with NUL, then compare with `timingSafeEqual` behind a length guard (the guard
makes the length-mismatch exception unreachable).  Modelled at character
granularity. -/
def verifyPassword (input expected : List Char) : Bool :=
  let inputBuf := input ++ List.replicate (256 - input.length) (Char.ofNat 0)
  let expectedBuf := expected ++ List.replicate (256 - expected.length) (Char.ofNat 0)
  decide (inputBuf.length = expectedBuf.length) && decide (inputBuf = expectedBuf)

/-- Outcome of the login POST: HTTP status, success flag, client-visible error
message, cookie value set (the minted token), and the `attempts` map after the
request. -/
structure LoginResult where
  status : Nat
  success : Bool
  error : Option String
  setCookie : Option (List Char)
  attemptsAfter : AttemptMap

/-- The body of the login POST past the configuration and rate-limit guards:
JSON parsing (`.error` = thrown), password shape validation, timing-safe
comparison, then mint-and-set-cookie on success (clearing the caller's
rate-limit record) or record-and-delay on failure. -/
def loginMain (m : HmacModel) (appPassword : Option (List Char)) (now : Int)
    (ip : String) (nonce : List Char) (body : Except Unit LoginBody)
    (st : AttemptMap) : LoginResult :=
  match body with
  | .error _ => ⟨400, false, some "Invalid request", none, st⟩
  | .ok b =>
    match b.password with
    | .vstr p =>
      if p = [] ∨ 256 < p.length then
        ⟨401, false, some "Invalid credentials", none, st⟩
      else if verifyPassword p (appPassword.getD []) then
        ⟨200, true, none, some (generateSessionToken m appPassword nonce),
          mapDelete ip st⟩
      else
        ⟨401, false, some "Invalid credentials", none, recordAttempt now ip st⟩
    | _ => ⟨401, false, some "Invalid credentials", none, st⟩

/-- The login POST handler of the session route: missing-password guard,
nested rate-limit guard (outer `getAttemptCount >= MAX`, inner re-read of the
record with a strict in-window check), then `loginMain`. -/
def loginPOST (m : HmacModel) (appPassword : Option (List Char)) (now : Int)
    (ip : String) (nonce : List Char) (body : Except Unit LoginBody)
    (st : AttemptMap) : LoginResult :=
  if falsyOpt appPassword then
    ⟨500, false, some "Authentication not configured", none, st⟩
  else if RATE_LIMIT_MAX ≤ getAttemptCount now ip st then
    match st ip with
    | some r =>
      if now - r.firstAttempt < RATE_LIMIT_WINDOW then
        ⟨429, false, some "Too many attempts. Try again later.", none, st⟩
      else loginMain m appPassword now ip nonce body st
    | none => loginMain m appPassword now ip nonce body st
  else loginMain m appPassword now ip nonce body st

/-- The response of the middleware: pass the request through, or redirect to
`/login?from=<pathname>`. -/
inductive MWResponse where
  | next
  | redirectLogin (fromParam : List Char)
deriving DecidableEq

/-- `s.startsWith(p)` on character lists. -/
def strStartsWith : List Char → List Char → Bool
  | _, [] => true
  | [], _ :: _ => false
  | c :: cs, p :: ps => if c = p then strStartsWith cs ps else false

/-- The middleware's allow-list of public route prefixes. -/
def publicRoutes : List (List Char) := [chars "/login", chars "/api/auth"]

/-- The combined condition under which the middleware passes a request through
without an auth check: a public route prefix, a Next.js internal or favicon
path, or any path containing a ".". -/
def isPublicOrStatic (pathname : List Char) : Bool :=
  publicRoutes.any (fun r => strStartsWith pathname r) ||
  (strStartsWith pathname (chars "/_next") ||
   strStartsWith pathname (chars "/favicon") ||
   pathname.contains '.')

/-- The `middleware` function: public and static paths pass through; otherwise
a missing, empty or non-verifying session cookie redirects to the login page
with the original pathname as the `from` query parameter. -/
def middleware (m : HmacModel) (appPassword : Option (List Char))
    (pathname : List Char) (cookie : Option (List Char)) : MWResponse :=
  if publicRoutes.any (fun r => strStartsWith pathname r) then .next
  else if strStartsWith pathname (chars "/_next") ||
          strStartsWith pathname (chars "/favicon") ||
          pathname.contains '.' then .next
  else
    match cookie with
    | none => .redirectLogin pathname
    | some v =>
      if v = [] then .redirectLogin pathname
      else if middlewareVerifySessionToken m appPassword v then .next
      else .redirectLogin pathname

/-- The login page's return-target computation: `searchParams.get("from") ||
"/"`, then accept the value only when it starts with "/" but not "//". -/
def loginFromTarget (fromParam : Option (List Char)) : List Char :=
  let rawFrom := match fromParam with
    | none => chars "/"
    | some s => if s = [] then chars "/" else s
  if strStartsWith rawFrom (chars "/") && !(strStartsWith rawFrom (chars "//")) then
    rawFrom
  else chars "/"

/-- Record of the per-route API rate limiters (`analyzeAttempts`,
`rateLimiter`). -/
structure RateRecord where
  count : Nat
  windowStart : Int
deriving DecidableEq

/-- An API rate-limit map, keyed by client IP. -/
abbrev RateMap := String → Option RateRecord

/-- 1 minute, the analyze route's rate window. -/
def ANALYZE_RATE_WINDOW : Int := 60 * 1000

/-- 10 requests per window, the analyze route's cap. -/
def ANALYZE_RATE_MAX : Nat := 10

/-- `checkAnalyzeRateLimit`: fresh record with count 1 on a missing or expired
entry (allowed); hard reject at the cap without incrementing; otherwise
increment in place (allowed). -/
def checkAnalyzeRateLimit (now : Int) (ip : String) (st : RateMap) :
    Bool × RateMap :=
  match st ip with
  | none => (true, mapSet ip ⟨1, now⟩ st)
  | some r =>
    if now - r.windowStart > ANALYZE_RATE_WINDOW then (true, mapSet ip ⟨1, now⟩ st)
    else if ANALYZE_RATE_MAX ≤ r.count then (false, st)
    else (true, mapSet ip ⟨r.count + 1, r.windowStart⟩ st)

/-- 1 minute, the thumbnail route's rate window. -/
def RATE_WINDOW : Int := 60 * 1000

/-- 10 requests per window, the thumbnail route's cap. -/
def RATE_MAX : Nat := 10

/-- `checkRateLimit` of the thumbnail route (same algorithm as the analyze
route, over its own `rateLimiter` map). -/
def checkRateLimit (now : Int) (ip : String) (st : RateMap) : Bool × RateMap :=
  match st ip with
  | none => (true, mapSet ip ⟨1, now⟩ st)
  | some r =>
    if now - r.windowStart > RATE_WINDOW then (true, mapSet ip ⟨1, now⟩ st)
    else if RATE_MAX ≤ r.count then (false, st)
    else (true, mapSet ip ⟨r.count + 1, r.windowStart⟩ st)

/-- A sequence of calls to `checkAnalyzeRateLimit` for one key at the given
times, returning the list of allow/deny answers and the final map. -/
def runCalls (ip : String) : List Int → RateMap → List Bool × RateMap
  | [], st => ([], st)
  | t :: ts, st =>
    let r := checkAnalyzeRateLimit t ip st
    let rest := runCalls ip ts r.2
    (r.1 :: rest.1, rest.2)

/-- An exception thrown inside a route handler's `try` block: an upstream
OpenAI `APIError` with its HTTP status and whether its message mentions a
content-policy rejection, a JSON `SyntaxError`, or any other error. -/
inductive ThrownErr where
  | api (status : Nat) (contentPolicy : Bool)
  | syntaxErr
  | generic
deriving DecidableEq

/-- Lookup in the `CHANNELS` record: the two configured channel ids. -/
def getChannel (id : List Char) : Option (List Char) :=
  if id = chars "techtony" ∨ id = chars "huntermason" then some id else none

/-- A character JavaScript's `trim` removes (modelled over the common ASCII
whitespace characters; the handlers only test trimmed-emptiness). -/
def isJsSpace (c : Char) : Bool :=
  decide (c = ' ') || decide (c = '\t') || decide (c = '\n') || decide (c = '\r')

/-- `s.trim()` on character lists. -/
def trimWS (l : List Char) : List Char :=
  ((l.dropWhile isJsSpace).reverse.dropWhile isJsSpace).reverse

/-- The parsed body of the analyze POST. -/
structure AnalyzeBody where
  transcript : JsVal
  channel : JsVal
  visual_context : JsVal
  video_duration : JsVal

/-- Truthiness of the five required sections of the AI's JSON answer
(`required.filter((k) => !data[k])`). -/
structure ParsedData where
  titles : Bool
  description : Bool
  thumbnail_concepts : Bool
  tags : Bool
  timeline : Bool

/-- Oracles for the analyze POST's fallible steps: body parsing, the chat
completion (`.ok none` = no content in the reply), and parsing/validating the
AI's JSON. -/
structure AnalyzeOracles where
  body : Except ThrownErr AnalyzeBody
  completion : Except ThrownErr (Option (List Char))
  parsed : Except ThrownErr ParsedData

/-- Outcome of the analyze POST: HTTP status, success flag, and the
`analyzeAttempts` map after the request. -/
structure AnalyzeResult where
  status : Nat
  success : Bool
  mapAfter : RateMap

/-- The `try` block of the analyze POST: field validation (400s), the AI call
and answer validation; every thrown error is caught and mapped to a sanitized
500 response. -/
def analyzeTry (st : RateMap) (o : AnalyzeOracles) : AnalyzeResult :=
  match o.body with
  | .error _ => ⟨500, false, st⟩
  | .ok b =>
    match b.transcript with
    | .vstr s =>
      if s = [] ∨ trimWS s = [] then ⟨400, false, st⟩
      else if 100000 < s.length then ⟨400, false, st⟩
      else
        match b.channel with
        | .vstr ch =>
          if ch = [] then ⟨400, false, st⟩
          else
            match getChannel ch with
            | none => ⟨400, false, st⟩
            | some _ =>
              if b.visual_context.truthy && !(b.visual_context.isString) then
                ⟨400, false, st⟩
              else if b.video_duration.truthy && !(b.video_duration.isString) then
                ⟨400, false, st⟩
              else
                match o.completion with
                | .error _ => ⟨500, false, st⟩
                | .ok none => ⟨500, false, st⟩
                | .ok (some _) =>
                  match o.parsed with
                  | .error _ => ⟨500, false, st⟩
                  | .ok d =>
                    if d.titles && d.description && d.thumbnail_concepts &&
                       d.tags && d.timeline then ⟨200, true, st⟩
                    else ⟨500, false, st⟩
        | _ => ⟨400, false, st⟩
    | _ => ⟨400, false, st⟩

/-- The analyze POST handler: signed-token auth check first, then the API-key
guard, then the rate limiter, then the `try` block. -/
def analyzePOST (m : HmacModel) (appPassword : Option (List Char))
    (cookie : Option (List Char)) (apiKeySet : Bool) (now : Int) (ip : String)
    (st : RateMap) (o : AnalyzeOracles) : AnalyzeResult :=
  match cookie with
  | none => ⟨401, false, st⟩
  | some v =>
    if v = [] ∨ routeVerifySessionToken m appPassword v = false then
      ⟨401, false, st⟩
    else if apiKeySet = false then ⟨500, false, st⟩
    else
      match checkAnalyzeRateLimit now ip st with
      | (allowed, st') =>
        if allowed = false then ⟨429, false, st'⟩ else analyzeTry st' o

/-- The parsed body of the thumbnail POST. -/
structure ThumbBody where
  concept : JsVal
  text_overlay : JsVal
  emotion : JsVal
  channel : JsVal
  style_guide : JsVal
  headshot_url : JsVal
  video_title : JsVal

/-- Oracles for the thumbnail POST's fallible steps: body parsing, the
prompt-crafter completion, image generation (`.ok none` = missing URL in the
reply), the image download (`.ok false` = non-ok response), the resize step,
and the CDN upload.  Headshot compositing is omitted: its failure is caught
inline and never alters the control flow or the response. -/
structure ThumbOracles where
  body : Except ThrownErr ThumbBody
  promptContent : Except ThrownErr (Option (List Char))
  genImageUrl : Except ThrownErr (Option (List Char))
  downloadOk : Except ThrownErr Bool
  resize : Except ThrownErr Unit
  upload : Except ThrownErr (List Char)

/-- Outcome of the thumbnail POST: HTTP status, success flag, returned image
URL, and the `rateLimiter` map after the request. -/
structure ThumbResult where
  status : Nat
  success : Bool
  url : Option (List Char)
  mapAfter : RateMap

/-- The thumbnail route's `catch` block: content-policy API errors map to 400,
API rate-limit errors to 429, everything else to 500. -/
def thumbCatchStatus : ThrownErr → Nat
  | .api s cp => if s = 400 ∧ cp then 400 else if s = 429 then 429 else 500
  | _ => 500

/-- The `try` block of the thumbnail POST.  The CDN upload is attempted inside
its own `try`: on failure the handler falls back to the upstream generated
image URL and still succeeds. -/
def thumbTry (st : RateMap) (o : ThumbOracles) : ThumbResult :=
  match o.body with
  | .error err => ⟨thumbCatchStatus err, false, none, st⟩
  | .ok b =>
    match b.concept with
    | .vstr c =>
      if c = [] then ⟨400, false, none, st⟩
      else
        match b.channel with
        | .vstr ch =>
          if ch = [] then ⟨400, false, none, st⟩
          else
            match getChannel ch with
            | none => ⟨400, false, none, st⟩
            | some _ =>
              match o.promptContent with
              | .error err => ⟨thumbCatchStatus err, false, none, st⟩
              | .ok _ =>
                match o.genImageUrl with
                | .error err => ⟨thumbCatchStatus err, false, none, st⟩
                | .ok none => ⟨500, false, none, st⟩
                | .ok (some imageUrl) =>
                  match o.downloadOk with
                  | .error err => ⟨thumbCatchStatus err, false, none, st⟩
                  | .ok false => ⟨500, false, none, st⟩
                  | .ok true =>
                    match o.resize with
                    | .error err => ⟨thumbCatchStatus err, false, none, st⟩
                    | .ok _ =>
                      match o.upload with
                      | .error _ => ⟨200, true, some imageUrl, st⟩
                      | .ok cdnUrl => ⟨200, true, some cdnUrl, st⟩
        | _ => ⟨400, false, none, st⟩
    | _ => ⟨400, false, none, st⟩

/-- The thumbnail POST handler: signed-token auth check, API-key guard, rate
limiter, then the `try` block. -/
def thumbnailPOST (m : HmacModel) (appPassword : Option (List Char))
    (cookie : Option (List Char)) (apiKeySet : Bool) (now : Int) (ip : String)
    (st : RateMap) (o : ThumbOracles) : ThumbResult :=
  match cookie with
  | none => ⟨401, false, none, st⟩
  | some v =>
    if v = [] ∨ routeVerifySessionToken m appPassword v = false then
      ⟨401, false, none, st⟩
    else if apiKeySet = false then ⟨500, false, none, st⟩
    else
      match checkRateLimit now ip st with
      | (allowed, st') =>
        if allowed = false then ⟨429, false, none, st'⟩ else thumbTry st' o

/-- The empty API rate-limit map. -/
def emptyRate : RateMap := fun _ => none

/-- The empty login attempt map. -/
def emptyAttempts : AttemptMap := fun _ => none

/-- An API rate-limit map in which key "k" is exhausted at window start 0. -/
def fullRate : RateMap := mapSet "k" ⟨10, 0⟩ emptyRate

/-- A login attempt map holding one failed attempt at time 0 for "1.2.3.4". -/
def oneAttempt : AttemptMap := mapSet "1.2.3.4" ⟨1, 0⟩ emptyAttempts

/-- Analyze oracles in which every fallible step throws (the auth guard
returns before any of them is consulted). -/
def analyzeOraclesStub : AnalyzeOracles :=
  ⟨Except.error .generic, Except.error .generic, Except.error .generic⟩

/-- A parsed login body carrying the password "pw". -/
def pwBody : Except Unit LoginBody := Except.ok ⟨.vstr (chars "pw")⟩

/-- A well-formed thumbnail request body. -/
def thumbBodyOk : ThumbBody :=
  ⟨.vstr (chars "close-up face"), .vstr (chars "GO"), .vstr (chars "shock"),
   .vstr (chars "techtony"), .undef, .undef, .undef⟩

/-- Thumbnail oracles describing a run in which generation, download and
resize succeed but the CDN upload throws. -/
def thumbOraclesUploadFail : ThumbOracles :=
  ⟨.ok thumbBodyOk, .ok none, .ok (some (chars "https:u1")), .ok true,
   .ok (), .error .generic⟩

/-! ### Lemmas about the token split -/

theorem splitOnDot_ne_nil (l : List Char) : splitOnDot l ≠ [] := by
  cases l with
  | nil => simp [splitOnDot]
  | cons c rest =>
    simp only [splitOnDot]
    cases splitOnDot rest with
    | nil => simp
    | cons p ps => by_cases hc : c = '.' <;> simp [hc]

theorem splitOnDot_no_dot (l : List Char) (h : '.' ∉ l) : splitOnDot l = [l] := by
  induction l with
  | nil => rfl
  | cons c rest ih =>
    have hc : c ≠ '.' := fun hc => h (hc ▸ List.mem_cons_self c rest)
    have hr : '.' ∉ rest := fun hm => h (List.mem_cons_of_mem c hm)
    simp only [splitOnDot, ih hr]
    simp [hc]

theorem splitOnDot_append (a b : List Char) (h : '.' ∉ a) :
    splitOnDot (a ++ '.' :: b) = a :: splitOnDot b := by
  induction a with
  | nil =>
    simp only [List.nil_append, splitOnDot]
    cases splitOnDot b <;> simp
  | cons c a ih =>
    have hc : c ≠ '.' := fun hc => h (hc ▸ List.mem_cons_self c a)
    have ha : '.' ∉ a := fun hm => h (List.mem_cons_of_mem c hm)
    show splitOnDot (c :: (a ++ '.' :: b)) = (c :: a) :: splitOnDot b
    simp only [splitOnDot]
    rw [ih ha]
    simp [hc]

theorem splitOnDot_length (l : List Char) :
    (splitOnDot l).length = l.count '.' + 1 := by
  induction l with
  | nil => rfl
  | cons c rest ih =>
    simp only [splitOnDot]
    cases hs : splitOnDot rest with
    | nil => exact absurd hs (splitOnDot_ne_nil rest)
    | cons p ps =>
      rw [hs] at ih
      by_cases hc : c = '.'
      · subst hc
        simp only [List.count_cons, if_pos rfl, beq_self_eq_true, if_true]
        simp at ih ⊢
        omega
      · simp only [List.count_cons]
        simp [hc] at ih ⊢
        omega

theorem verifySessionToken_false_of_parts (m : HmacModel)
    (pw : Option (List Char)) (token : List Char)
    (h : (splitOnDot token).length ≠ 2) :
    verifySessionToken m pw token = false := by
  unfold verifySessionToken
  cases hs : splitOnDot token with
  | nil => rfl
  | cons a t =>
    cases t with
    | nil => rfl
    | cons b t2 =>
      cases t2 with
      | nil =>
        exact absurd (by rw [hs]; rfl) h
      | cons d t3 => rfl

theorem verifySessionToken_two_parts (m : HmacModel) (pw : Option (List Char))
    (n s token : List Char) (hs : splitOnDot token = [n, s]) :
    verifySessionToken m pw token =
      (if n = [] ∨ s = [] then false
       else (timingSafeEqual (bufferFromHex s)
         (bufferFromHex (m.hmac (getSessionSecret m pw) n))).getD false) := by
  unfold verifySessionToken
  rw [hs]

theorem mem_list_set_self {α : Type} (l : List α) (i : Nat) (a : α)
    (h : i < l.length) : a ∈ l.set i a := by
  induction l generalizing i with
  | nil => simp at h
  | cons x xs ih =>
    cases i with
    | zero => simp
    | succ j =>
      simp only [List.set_cons_succ]
      exact List.mem_cons_of_mem x (ih j (by simpa using h))

theorem mem_of_list_set {α : Type} {l : List α} {i : Nat} {a b : α}
    (h : b ∈ l.set i a) : b ∈ l ∨ b = a := by
  induction l generalizing i with
  | nil => simp at h
  | cons x xs ih =>
    cases i with
    | zero =>
      simp only [List.set_cons_zero] at h
      rcases List.mem_cons.mp h with h | h
      · exact Or.inr h
      · exact Or.inl (List.mem_cons_of_mem x h)
    | succ j =>
      simp only [List.set_cons_succ] at h
      rcases List.mem_cons.mp h with h | h
      · exact Or.inl (h ▸ List.mem_cons_self x xs)
      · rcases ih h with h | h
        · exact Or.inl (List.mem_cons_of_mem x h)
        · exact Or.inr h

/-! ### Claim theorems for the token codec -/

/-- Claim C1: token codec round-trip — for every password, verifying a token
immediately after minting it with that same password returns true.  The nonce
and every digest of the keyed hash are non-empty strings without the "."
separator (true of `randomBytes(32).toString("hex")` and of hex SHA-256
digests). -/
theorem c1_mint_verify_roundtrip (m : HmacModel) (pw : Option (List Char))
    (nonce : List Char) (hn : nonce ≠ [] ∧ '.' ∉ nonce)
    (hh : ∀ k d, m.hmac k d ≠ [] ∧ '.' ∉ m.hmac k d) :
    verifySessionToken m pw (generateSessionToken m pw nonce) = true := by
  obtain ⟨hn1, hn2⟩ := hn
  obtain ⟨hs1, hs2⟩ := hh (getSessionSecret m pw) nonce
  have hsplit : splitOnDot (generateSessionToken m pw nonce) =
      [nonce, m.hmac (getSessionSecret m pw) nonce] := by
    unfold generateSessionToken
    rw [splitOnDot_append _ _ hn2, splitOnDot_no_dot _ hs2]
  rw [verifySessionToken_two_parts m pw _ _ _ hsplit]
  rw [if_neg (not_or.mpr ⟨hn1, hs1⟩)]
  unfold timingSafeEqual
  rw [if_pos rfl]
  simp

theorem c1_witness :
    verifySessionToken constHmac (some (chars "pw"))
      (generateSessionToken constHmac (some (chars "pw")) (chars "cd")) = true :=
  c1_mint_verify_roundtrip constHmac (some (chars "pw")) (chars "cd")
    ⟨by decide, by decide⟩
    (fun k d => ⟨by show chars "ab" ≠ []; decide, by show '.' ∉ chars "ab"; decide⟩)

/-- Claim C5 (amended): verification fails closed — false when the token does
not split into exactly two parts, when either part is empty, or when the
hex-decoded bytes of the stored signature differ from those of the recomputed
signature.  (The comparison is on `Buffer.from(·, "hex")` decodings, which are
case-insensitive, so inequality of the raw signature strings alone does not
force rejection — see the counterexample.)  The function is total, so it never
throws to the caller. -/
theorem c5_verify_fails_closed (m : HmacModel) (pw : Option (List Char))
    (token n s : List Char) :
    ((splitOnDot token).length ≠ 2 → verifySessionToken m pw token = false)
    ∧ (splitOnDot token = [n, s] → n = [] ∨ s = [] →
        verifySessionToken m pw token = false)
    ∧ (splitOnDot token = [n, s] →
        bufferFromHex s ≠ bufferFromHex (m.hmac (getSessionSecret m pw) n) →
        verifySessionToken m pw token = false) := by
  refine ⟨verifySessionToken_false_of_parts m pw token, ?_, ?_⟩
  · intro hs he
    rw [verifySessionToken_two_parts m pw _ _ _ hs, if_pos he]
  · intro hs hne
    rw [verifySessionToken_two_parts m pw _ _ _ hs]
    by_cases he : n = [] ∨ s = []
    · rw [if_pos he]
    · rw [if_neg he]
      unfold timingSafeEqual
      by_cases hl : (bufferFromHex s).length =
          (bufferFromHex (m.hmac (getSessionSecret m pw) n)).length
      · rw [if_pos hl, decide_eq_false hne]
        rfl
      · rw [if_neg hl]
        rfl

theorem c5_witness : verifySessionToken constHmac (some (chars "pw")) (chars "x") = false :=
  (c5_verify_fails_closed constHmac (some (chars "pw")) (chars "x") [] []).1 (by decide)

/-- Claim C5, counterexample to the literal reading: a token whose stored
signature string differs from the recomputed one (uppercase hex) still
verifies, because `Buffer.from(·, "hex")` decodes both to the same bytes. -/
theorem c5_counterexample :
    splitOnDot (chars "ab.AB") = [chars "ab", chars "AB"]
    ∧ chars "AB" ≠
        constHmac.hmac (getSessionSecret constHmac (some (chars "pw"))) (chars "ab")
    ∧ verifySessionToken constHmac (some (chars "pw")) (chars "ab.AB") = true :=
  ⟨by decide, by decide, by decide⟩

/-- Claim C6 (amended): tamper detection — mutating one character of a valid
token's signature half makes verification fail, provided the mutation changes
the hex-decoding of the signature.  (Node's hex decoding is case-insensitive
and truncates at invalid characters, so a mutation that leaves the decoded
bytes unchanged — flipping the case of a hex digit — still verifies.) -/
theorem c6_tamper_detected (m : HmacModel) (pw : Option (List Char))
    (nonce sig : List Char) (i : Nat) (c : Char)
    (hv : verifySessionToken m pw (nonce ++ '.' :: sig) = true)
    (hi : i < sig.length)
    (hd : bufferFromHex (sig.set i c) ≠ bufferFromHex sig) :
    verifySessionToken m pw (nonce ++ '.' :: sig.set i c) = false := by
  have hlen : (splitOnDot (nonce ++ '.' :: sig)).length = 2 := by
    by_contra h
    rw [verifySessionToken_false_of_parts m pw _ h] at hv
    simp at hv
  rw [splitOnDot_length, List.count_append, List.count_cons] at hlen
  simp at hlen
  have hn2 : '.' ∉ nonce := List.count_eq_zero.mp (by omega)
  have hs2 : '.' ∉ sig := List.count_eq_zero.mp (by omega)
  have hsplit : splitOnDot (nonce ++ '.' :: sig) = [nonce, sig] := by
    rw [splitOnDot_append _ _ hn2, splitOnDot_no_dot _ hs2]
  rw [verifySessionToken_two_parts m pw _ _ _ hsplit] at hv
  by_cases he : nonce = [] ∨ sig = []
  · rw [if_pos he] at hv
    simp at hv
  · rw [if_neg he] at hv
    unfold timingSafeEqual at hv
    by_cases hl : (bufferFromHex sig).length =
        (bufferFromHex (m.hmac (getSessionSecret m pw) nonce)).length
    · rw [if_pos hl] at hv
      have heq : bufferFromHex sig =
          bufferFromHex (m.hmac (getSessionSecret m pw) nonce) :=
        of_decide_eq_true (by simpa using hv)
      by_cases hc : c = '.'
      · subst hc
        apply verifySessionToken_false_of_parts
        rw [splitOnDot_length, List.count_append, List.count_cons]
        have hmem : '.' ∈ sig.set i '.' := mem_list_set_self sig i '.' hi
        have hpos : 1 ≤ (sig.set i '.').count '.' := by
          rcases Nat.eq_zero_or_pos ((sig.set i '.').count '.') with h0 | h1
          · exact absurd hmem (List.count_eq_zero.mp h0)
          · exact h1
        have hnc : nonce.count '.' = 0 := List.count_eq_zero.mpr hn2
        simp [hnc]
        omega
      · have hs2' : '.' ∉ sig.set i c := by
          intro hmem
          rcases mem_of_list_set hmem with h | h
          · exact hs2 h
          · exact hc h.symm
        have hsplit' : splitOnDot (nonce ++ '.' :: sig.set i c) =
            [nonce, sig.set i c] := by
          rw [splitOnDot_append _ _ hn2, splitOnDot_no_dot _ hs2']
        rw [verifySessionToken_two_parts m pw _ _ _ hsplit']
        have hne : ¬(nonce = [] ∨ sig.set i c = []) := by
          push_neg
          constructor
          · exact fun h => he (Or.inl h)
          · intro h
            have hlen0 := congrArg List.length h
            rw [List.length_set] at hlen0
            exact he (Or.inr (List.eq_nil_of_length_eq_zero hlen0))
        rw [if_neg hne]
        unfold timingSafeEqual
        have hd' : bufferFromHex (sig.set i c) ≠
            bufferFromHex (m.hmac (getSessionSecret m pw) nonce) := heq ▸ hd
        by_cases hl' : (bufferFromHex (sig.set i c)).length =
            (bufferFromHex (m.hmac (getSessionSecret m pw) nonce)).length
        · rw [if_pos hl', decide_eq_false hd']
          rfl
        · rw [if_neg hl']
          rfl
    · rw [if_neg hl] at hv
      simp at hv

theorem c6_witness :
    verifySessionToken constHmac (some (chars "pw"))
      (chars "ab" ++ '.' :: (chars "ab").set 0 'x') = false :=
  c6_tamper_detected constHmac (some (chars "pw")) (chars "ab") (chars "ab") 0 'x'
    (by decide) (by decide) (by decide)

/-- Claim C6, counterexample to the literal reading: flipping the case of one
hex character of a valid token's signature half yields a different token that
still verifies, because hex decoding is case-insensitive. -/
theorem c6_counterexample :
    verifySessionToken constHmac (some (chars "pw")) (chars "ab.ab") = true
    ∧ (chars "ab").set 0 'A' = chars "Ab"
    ∧ 'A' ≠ 'a'
    ∧ verifySessionToken constHmac (some (chars "pw")) (chars "ab.Ab") = true :=
  ⟨by decide, by decide, by decide, by decide⟩

/-! ### Lemmas about the API rate limiter -/

theorem range_map_succ (n : Nat) (f : Nat → Bool) :
    (List.range (n + 1)).map f = f 0 :: (List.range n).map (fun j => f (j + 1)) := by
  rw [List.range_succ_eq_map, List.map_cons, List.map_map]
  rfl

theorem runCalls_in_window (ip : String) (t₁ : Int) (ts : List Int) :
    ∀ (st : RateMap) (c : Nat),
      st ip = some ⟨c, t₁⟩ → (∀ t ∈ ts, t - t₁ ≤ ANALYZE_RATE_WINDOW) →
      (runCalls ip ts st).1 =
        (List.range ts.length).map (fun j => decide (c + j < ANALYZE_RATE_MAX)) := by
  induction ts with
  | nil => intro st c _ _; rfl
  | cons t ts ih =>
    intro st c hst hw
    have hne : ¬(t - t₁ > ANALYZE_RATE_WINDOW) :=
      not_lt.mpr (hw t (List.mem_cons_self t ts))
    have hw' : ∀ x ∈ ts, x - t₁ ≤ ANALYZE_RATE_WINDOW :=
      fun x hx => hw x (List.mem_cons_of_mem t hx)
    by_cases hmax : ANALYZE_RATE_MAX ≤ c
    · have hcheck : checkAnalyzeRateLimit t ip st = (false, st) := by
        simp [checkAnalyzeRateLimit, hst, hne, hmax]
      have htail := ih st c hst hw'
      simp only [runCalls, hcheck, List.length_cons]
      rw [htail, range_map_succ]
      congr 1
      · rw [decide_eq_false (by omega)]
      · apply List.map_congr_left
        intro j _
        rw [decide_eq_false (by omega), decide_eq_false (by omega)]
    · have hcheck : checkAnalyzeRateLimit t ip st =
          (true, mapSet ip ⟨c + 1, t₁⟩ st) := by
        simp [checkAnalyzeRateLimit, hst, hne, hmax]
      have hst' : mapSet ip ⟨c + 1, t₁⟩ st ip = some ⟨c + 1, t₁⟩ := by
        simp [mapSet]
      have htail := ih (mapSet ip ⟨c + 1, t₁⟩ st) (c + 1) hst' hw'
      simp only [runCalls, hcheck, List.length_cons]
      rw [htail, range_map_succ]
      congr 1
      · rw [decide_eq_true (by omega)]
      · apply List.map_congr_left
        intro j _
        rw [show c + 1 + j = c + (j + 1) from by omega]

/-- Claim C2: `checkAnalyzeRateLimit` semantics — a missing or expired record
is replaced by a fresh one with count 1 and the call is allowed; at the cap
the call is denied without incrementing; below the cap the count increments
and the call is allowed.  Consequently a sequence of calls for a fresh key,
all within one window of the first call, is allowed exactly on the first
`ANALYZE_RATE_MAX` calls; and an exhausted key is allowed again once the
window has elapsed. -/
theorem c2_checkAnalyzeRateLimit_semantics (now : Int) (ip : String)
    (st : RateMap) (r : RateRecord) (t₀ : Int) (rest : List Int) :
    (st ip = none →
      checkAnalyzeRateLimit now ip st = (true, mapSet ip ⟨1, now⟩ st))
    ∧ (st ip = some r → now - r.windowStart > ANALYZE_RATE_WINDOW →
      checkAnalyzeRateLimit now ip st = (true, mapSet ip ⟨1, now⟩ st))
    ∧ (st ip = some r → ¬(now - r.windowStart > ANALYZE_RATE_WINDOW) →
      ANALYZE_RATE_MAX ≤ r.count →
      checkAnalyzeRateLimit now ip st = (false, st))
    ∧ (st ip = some r → ¬(now - r.windowStart > ANALYZE_RATE_WINDOW) →
      r.count < ANALYZE_RATE_MAX →
      checkAnalyzeRateLimit now ip st =
        (true, mapSet ip ⟨r.count + 1, r.windowStart⟩ st))
    ∧ (st ip = none → (∀ t ∈ rest, t - t₀ ≤ ANALYZE_RATE_WINDOW) →
      (runCalls ip (t₀ :: rest) st).1 =
        (List.range (rest.length + 1)).map (fun j => decide (j < ANALYZE_RATE_MAX)))
    ∧ (st ip = some r → ANALYZE_RATE_MAX ≤ r.count →
      now - r.windowStart > ANALYZE_RATE_WINDOW →
      (checkAnalyzeRateLimit now ip st).1 = true) := by
  refine ⟨?_, ?_, ?_, ?_, ?_, ?_⟩
  · intro h
    simp [checkAnalyzeRateLimit, h]
  · intro h hexp
    simp [checkAnalyzeRateLimit, h, hexp]
  · intro h hexp hmax
    simp [checkAnalyzeRateLimit, h, hexp, hmax]
  · intro h hexp hmax
    have h' := not_le.mpr hmax
    simp [checkAnalyzeRateLimit, h, hexp, h']
  · intro h hw
    have hcheck : checkAnalyzeRateLimit t₀ ip st = (true, mapSet ip ⟨1, t₀⟩ st) := by
      simp [checkAnalyzeRateLimit, h]
    have hst' : mapSet ip ⟨1, t₀⟩ st ip = some ⟨1, t₀⟩ := by simp [mapSet]
    have htail := runCalls_in_window ip t₀ rest (mapSet ip ⟨1, t₀⟩ st) 1 hst' hw
    simp only [runCalls, hcheck]
    rw [htail, range_map_succ]
    congr 1
    apply List.map_congr_left
    intro j _
    rw [show 1 + j = j + 1 from by omega]
  · intro h hmax hexp
    simp [checkAnalyzeRateLimit, h, hexp]

theorem c2_witness :
    checkAnalyzeRateLimit 0 "k" emptyRate = (true, mapSet "k" ⟨1, 0⟩ emptyRate)
    ∧ checkAnalyzeRateLimit 5 "k" fullRate = (false, fullRate)
    ∧ (checkAnalyzeRateLimit 9999999 "k" fullRate).1 = true :=
  ⟨(c2_checkAnalyzeRateLimit_semantics 0 "k" emptyRate ⟨10, 0⟩ 0 []).1 (by decide),
   (c2_checkAnalyzeRateLimit_semantics 5 "k" fullRate ⟨10, 0⟩ 0 []).2.2.1 (by decide)
     (by decide) (by decide),
   (c2_checkAnalyzeRateLimit_semantics 9999999 "k" fullRate ⟨10, 0⟩ 0 []).2.2.2.2.2
     (by decide) (by decide) (by decide)⟩

/-! ### Claim theorems for the login backoff delay -/

theorem delayOfCount_le_delayOfCount {c c' : Nat} (h : c ≤ c') :
    delayOfCount c ≤ delayOfCount c' := by
  unfold delayOfCount
  by_cases h1 : c ≤ 1
  · rw [if_pos h1]
    exact Nat.zero_le _
  · rw [if_neg h1, if_neg (by omega)]
    apply min_le_min _ le_rfl
    exact Nat.mul_le_mul le_rfl (Nat.pow_le_pow_right (by norm_num) (by omega))

/-- Claim C4 (amended): the login backoff delay is 0 when the in-window
failed-attempt count is at most 1, and `min(1000 * 2 ^ (count - 1), 8000)`
when the count is at least 2; it is non-decreasing in the count and capped at
8000 ms. -/
theorem c4_backoff_amended (now now' : Int) (ip ip' : String)
    (st st' : AttemptMap) :
    (getAttemptCount now ip st ≤ 1 → getDelay now ip st = 0)
    ∧ (2 ≤ getAttemptCount now ip st →
        getDelay now ip st =
          min (1000 * 2 ^ (getAttemptCount now ip st - 1)) 8000)
    ∧ getDelay now ip st ≤ 8000
    ∧ (getAttemptCount now ip st ≤ getAttemptCount now' ip' st' →
        getDelay now ip st ≤ getDelay now' ip' st') := by
  refine ⟨?_, ?_, ?_, ?_⟩
  · intro h
    simp [getDelay, delayOfCount, h]
  · intro h
    unfold getDelay delayOfCount
    rw [if_neg (by omega)]
  · unfold getDelay delayOfCount
    split
    · exact Nat.zero_le _
    · exact Nat.min_le_right _ _
  · exact fun h => delayOfCount_le_delayOfCount h

theorem c4_witness :
    getDelay 0 "1.2.3.4" (mapSet "1.2.3.4" ⟨3, 0⟩ emptyAttempts) =
      min (1000 * 2 ^
        (getAttemptCount 0 "1.2.3.4" (mapSet "1.2.3.4" ⟨3, 0⟩ emptyAttempts) - 1))
        8000 :=
  (c4_backoff_amended 0 0 "1.2.3.4" "1.2.3.4"
    (mapSet "1.2.3.4" ⟨3, 0⟩ emptyAttempts)
    (mapSet "1.2.3.4" ⟨3, 0⟩ emptyAttempts)).2.1 (by decide)

/-- Claim C4, counterexample to the literal formula: after a single failed
attempt (count 1) the code delays 0 ms, while `min(base * 2^(count-1), cap)`
would give 1000 ms. -/
theorem c4_counterexample :
    getAttemptCount 0 "1.2.3.4" oneAttempt = 1
    ∧ getDelay 0 "1.2.3.4" oneAttempt = 0
    ∧ min (1000 * 2 ^ (1 - 1)) 8000 = 1000
    ∧ (0 : Nat) ≠ 1000 := by decide

/-! ### Claim theorems for the login POST handler -/

/-- Claim C7: with no configured password the login POST returns 500 with the
service-misconfiguration error, mints no token, sets no cookie, and leaves the
attempt map untouched — it never falls through to minting with the fallback
secret. -/
theorem c7_missing_password_refuses (m : HmacModel) (now : Int) (ip : String)
    (nonce : List Char) (body : Except Unit LoginBody) (st : AttemptMap) :
    loginPOST m none now ip nonce body st =
      ⟨500, false, some "Authentication not configured", none, st⟩ := rfl

theorem loginMain_attempts_shape (m : HmacModel) (pw : Option (List Char))
    (now : Int) (ip : String) (nonce : List Char) (body : Except Unit LoginBody)
    (st : AttemptMap) :
    (loginMain m pw now ip nonce body st).attemptsAfter = st
    ∨ (loginMain m pw now ip nonce body st).attemptsAfter = recordAttempt now ip st
    ∨ ((loginMain m pw now ip nonce body st).attemptsAfter = mapDelete ip st
        ∧ (loginMain m pw now ip nonce body st).status = 200) := by
  unfold loginMain
  repeat' split
  all_goals first
    | exact Or.inl rfl
    | exact Or.inr (Or.inl rfl)
    | exact Or.inr (Or.inr ⟨rfl, rfl⟩)

theorem loginPOST_attempts_shape (m : HmacModel) (pw : Option (List Char))
    (now : Int) (ip : String) (nonce : List Char) (body : Except Unit LoginBody)
    (st : AttemptMap) :
    (loginPOST m pw now ip nonce body st).attemptsAfter = st
    ∨ (loginPOST m pw now ip nonce body st).attemptsAfter = recordAttempt now ip st
    ∨ ((loginPOST m pw now ip nonce body st).attemptsAfter = mapDelete ip st
        ∧ (loginPOST m pw now ip nonce body st).status = 200) := by
  unfold loginPOST
  repeat' split
  all_goals first
    | exact Or.inl rfl
    | exact loginMain_attempts_shape m pw now ip nonce body st

theorem mapSet_eq_none {α : Type} {key k : String} {v : α}
    {st : String → Option α} (h : mapSet key v st k = none) : st k = none := by
  unfold mapSet at h
  by_cases hk : k = key
  · rw [if_pos hk] at h
    exact absurd h (by simp)
  · rw [if_neg hk] at h
    exact h

theorem recordAttempt_eq_none {now : Int} {ip k : String} {st : AttemptMap}
    (h : recordAttempt now ip st k = none) : st k = none := by
  simp only [recordAttempt] at h
  cases hst : st ip with
  | none =>
    simp only [hst] at h
    exact mapSet_eq_none h
  | some r =>
    simp only [hst] at h
    split at h
    · exact mapSet_eq_none h
    · exact mapSet_eq_none h

/-- Claim C8 (amended): a rate-limit record disappears from the login attempt
map only when the request was a successful login by that same key (the handler
clears the caller's record on success); every other login outcome, and every
call of the API rate limiters, only creates, increments, or resets records. -/
theorem c8_records_removed_only_on_success (m : HmacModel)
    (pw : Option (List Char)) (now : Int) (ip : String) (nonce : List Char)
    (body : Except Unit LoginBody) (st : AttemptMap) (k : String) :
    ((loginPOST m pw now ip nonce body st).attemptsAfter k = none →
      st k = none ∨ (k = ip ∧ (loginPOST m pw now ip nonce body st).status = 200))
    ∧ (∀ (now' : Int) (ip' k' : String) (st' : RateMap),
        (checkAnalyzeRateLimit now' ip' st').2 k' = none → st' k' = none)
    ∧ (∀ (now' : Int) (ip' k' : String) (st' : RateMap),
        (checkRateLimit now' ip' st').2 k' = none → st' k' = none) := by
  refine ⟨?_, ?_, ?_⟩
  · intro h
    rcases loginPOST_attempts_shape m pw now ip nonce body st with hs | hs | ⟨hs, hstat⟩
    · rw [hs] at h
      exact Or.inl h
    · rw [hs] at h
      exact Or.inl (recordAttempt_eq_none h)
    · rw [hs] at h
      unfold mapDelete at h
      by_cases hk : k = ip
      · exact Or.inr ⟨hk, hstat⟩
      · rw [if_neg hk] at h
        exact Or.inl h
  · intro now' ip' k' st' h
    simp only [checkAnalyzeRateLimit] at h
    cases hst : st' ip' with
    | none =>
      simp only [hst] at h
      exact mapSet_eq_none h
    | some r =>
      simp only [hst] at h
      split at h
      · exact mapSet_eq_none h
      · split at h
        · exact h
        · exact mapSet_eq_none h
  · intro now' ip' k' st' h
    simp only [checkRateLimit] at h
    cases hst : st' ip' with
    | none =>
      simp only [hst] at h
      exact mapSet_eq_none h
    | some r =>
      simp only [hst] at h
      split at h
      · exact mapSet_eq_none h
      · split at h
        · exact h
        · exact mapSet_eq_none h

theorem c8_witness :
    emptyAttempts "b" = none
    ∨ ("b" = "a"
        ∧ (loginPOST constHmac none 0 "a" (chars "cd") pwBody emptyAttempts).status
          = 200) :=
  (c8_records_removed_only_on_success constHmac none 0 "a" (chars "cd") pwBody
    emptyAttempts "b").1 rfl

set_option maxRecDepth 10000 in
/-- Claim C8, counterexample to the literal reading: a successful login
deletes the caller's rate-limit record from the attempt map
(`attempts.delete(ip)` in the session route). -/
theorem c8_counterexample :
    (mapSet "9.9.9.9" (⟨3, 0⟩ : AttemptRecord) emptyAttempts) "9.9.9.9"
      = some ⟨3, 0⟩
    ∧ (loginPOST constHmac (some (chars "pw")) 0 "9.9.9.9" (chars "cd") pwBody
        (mapSet "9.9.9.9" ⟨3, 0⟩ emptyAttempts)).status = 200
    ∧ (loginPOST constHmac (some (chars "pw")) 0 "9.9.9.9" (chars "cd") pwBody
        (mapSet "9.9.9.9" ⟨3, 0⟩ emptyAttempts)).attemptsAfter "9.9.9.9"
      = none := by
  refine ⟨by decide, by decide, by decide⟩

/-! ### Claim theorems for the auth gate -/

/-- Claim C3: for every non-public, non-static path, a request whose session
cookie is absent, empty, or not verified by the token codec is redirected to
the login page carrying the original pathname as the `from` parameter; and the
login page maps any return target that is not a same-origin relative path
(starts with "/" but not "//") to "/", in particular "//evil.com". -/
theorem c3_auth_gate_redirects (m : HmacModel) (pw : Option (List Char))
    (pathname : List Char) (cookie : Option (List Char)) :
    (isPublicOrStatic pathname = false →
      (∀ v, cookie = some v →
        v = [] ∨ middlewareVerifySessionToken m pw v = false) →
      middleware m pw pathname cookie = .redirectLogin pathname)
    ∧ (∀ raw, (strStartsWith raw (chars "/") = false
        ∨ strStartsWith raw (chars "//") = true) →
      loginFromTarget (some raw) = chars "/")
    ∧ loginFromTarget (some (chars "//evil.com")) = chars "/" := by
  refine ⟨?_, ?_, by decide⟩
  · intro hpub hcookie
    simp only [isPublicOrStatic, Bool.or_eq_false_iff] at hpub
    obtain ⟨h1, ⟨⟨h2a, h2b⟩, h2c⟩⟩ := hpub
    unfold middleware
    rw [h1, h2a, h2b, h2c]
    simp only [Bool.or_self, Bool.false_eq_true, if_false]
    cases cookie with
    | none => rfl
    | some v =>
      rcases hcookie v rfl with hv | hv
      · simp [hv]
      · simp [hv]
  · intro raw hcase
    by_cases hr : raw = []
    · subst hr
      decide
    · simp only [loginFromTarget, if_neg hr]
      rcases hcase with h | h
      · simp [h]
      · simp [h]

theorem c3_witness :
    middleware constHmac (some (chars "pw")) (chars "/dashboard")
      (some (chars "xyz")) = .redirectLogin (chars "/dashboard") :=
  (c3_auth_gate_redirects constHmac (some (chars "pw")) (chars "/dashboard")
    (some (chars "xyz"))).1 (by decide)
    (fun v hv => by
      injection hv with h
      subst h
      exact Or.inr (by decide))

/-! ### Claim theorems for the API route handlers -/

/-- Claim C10: a POST to the analyze route with a missing, empty or invalid
session cookie returns 401 before the rate limiter is consulted, leaving the
rate-limit map completely unchanged. -/
theorem c10_auth_before_rate_limit (m : HmacModel) (pw : Option (List Char))
    (cookie : Option (List Char)) (apiKey : Bool) (now : Int) (ip : String)
    (st : RateMap) (o : AnalyzeOracles)
    (h : cookie = none ∨ ∃ v, cookie = some v ∧
        (v = [] ∨ routeVerifySessionToken m pw v = false)) :
    analyzePOST m pw cookie apiKey now ip st o = ⟨401, false, st⟩ := by
  rcases h with h | ⟨v, hv, hcase⟩
  · subst h
    rfl
  · subst hv
    simp only [analyzePOST]
    rw [if_pos hcase]

theorem c10_witness :
    analyzePOST constHmac (some (chars "pw")) none true 0 "ip" emptyRate
      analyzeOraclesStub = ⟨401, false, emptyRate⟩ :=
  c10_auth_before_rate_limit constHmac (some (chars "pw")) none true 0 "ip"
    emptyRate analyzeOraclesStub (Or.inl rfl)

/-- Claim C9: in the thumbnail route, when authentication, the API-key guard,
the rate limiter, validation, prompt crafting, image generation, download and
resize all succeed but the CDN upload throws, the handler still returns 200
with `success = true` and the `url` field set to the upstream generated-image
URL. -/
theorem c9_cdn_upload_fallback (m : HmacModel) (pw : Option (List Char))
    (v : List Char) (apiKey : Bool) (now : Int) (ip : String) (st : RateMap)
    (o : ThumbOracles) (b : ThumbBody) (c ch g : List Char)
    (pc : Option (List Char)) (u : List Char) (e : ThrownErr)
    (hv1 : v ≠ []) (hv2 : routeVerifySessionToken m pw v = true)
    (hkey : apiKey = true)
    (hrate : (checkRateLimit now ip st).1 = true)
    (hbody : o.body = .ok b)
    (hconcept : b.concept = .vstr c) (hc : c ≠ [])
    (hchannel : b.channel = .vstr ch) (hch0 : ch ≠ [])
    (hch : getChannel ch = some g)
    (hprompt : o.promptContent = .ok pc)
    (himg : o.genImageUrl = .ok (some u))
    (hdl : o.downloadOk = .ok true)
    (hresize : o.resize = .ok ())
    (hupload : o.upload = .error e) :
    thumbnailPOST m pw (some v) apiKey now ip st o =
      ⟨200, true, some u, (checkRateLimit now ip st).2⟩ := by
  subst hkey
  simp only [thumbnailPOST]
  rw [if_neg (by simp [hv1, hv2])]
  rw [if_neg (by simp)]
  cases hcr : checkRateLimit now ip st with
  | mk allowed st' =>
    rw [hcr] at hrate
    simp only at hrate
    subst hrate
    simp [thumbTry, hbody, hconcept, hchannel, hch, hprompt, himg, hdl,
      hresize, hupload, hc, hch0]

theorem c9_witness :
    thumbnailPOST constHmac (some (chars "pw")) (some (chars "ab.ab")) true 0
      "ip" emptyRate thumbOraclesUploadFail =
      ⟨200, true, some (chars "https:u1"), (checkRateLimit 0 "ip" emptyRate).2⟩ :=
  c9_cdn_upload_fallback constHmac (some (chars "pw")) (chars "ab.ab") true 0
    "ip" emptyRate thumbOraclesUploadFail thumbBodyOk (chars "close-up face")
    (chars "techtony") (chars "techtony") none (chars "https:u1") .generic
    (by decide) (by decide) rfl (by decide) rfl rfl (by decide) rfl (by decide)
    (by decide) rfl rfl rfl rfl rfl
